import Mathlib

/-!
Verification of the dtl library: a shallow embedding of the branchless
arithmetic kernel (branchless.hh) and of the RAII fd / mmap ownership
wrappers, together with proofs of the documented properties.

Machine integers are modelled as `Nat` (unsigned) or `Int` (signed) with
explicit reduction modulo `2^w` wherever the C++ arithmetic wraps; C++
integer promotion (operands narrower than `int` are widened to 32 bits) is
made explicit.  Fallible operations return `Except`/`Option`, and the OS
calls a wrapper makes are recorded as an explicit effect list, with the
results of those calls supplied by an environment trace.
-/

namespace Dtl

namespace Branchless

/-- Unsigned residue of an integer at width `W`: the two's-complement bit
pattern of `x` in `W` bits, read as a non-negative integer. -/
def toBits (W : Nat) (x : Int) : Int := x % ((2 : Int) ^ W)

/-- Signed value denoted by a two's-complement `W`-bit pattern: reduction of
`x` into the interval `[-2^(W-1), 2^(W-1))`.  This is the value a C++ signed
integer of width `W` holds after an operation whose mathematical result
overflowed (two's-complement wraparound). -/
def wrapS (W : Nat) (x : Int) : Int :=
  (x + (2 : Int) ^ (W - 1)) % ((2 : Int) ^ W) - (2 : Int) ^ (W - 1)

/-- Embedding of the `_::sign_extend_<w>` unions of branchless.hh: the
constructor stores the value into the double-width signed `dword` member
(C++ sign-extends on that conversion), and `mask()` reads back the signed
high word of the resulting bit pattern.  `w` is the operand width in bits. -/
def signExtendMask (w : Nat) (v : Int) : Int :=
  wrapS w (toBits (2 * w) v / (2 : Int) ^ w)

/-- Width of the C++ arithmetic performed on an operand of width `w`:
operands narrower than `int` are promoted to 32 bits. -/
def promoted (w : Nat) : Nat := Nat.max w 32

/-- Embedding of `dtl::branchless::abs` for a signed operand of width `w`:
`mask = sign_extend<T>(value).mask(); (value ^ mask) - mask`, computed (and
returned, the function returns `auto`) at the promoted width. -/
def abs (w : Nat) (v : Int) : Int :=
  let mask := signExtendMask w v
  wrapS (promoted w) (Int.xor v mask - mask)

/-- Embedding of `dtl::branchless::min`: `y ^ ((x ^ y) & -(x < y))`, where
the comparison produces 0 or 1 and unary negation turns it into an all-ones
or all-zeros mask. -/
def min (x y : Int) : Int :=
  Int.xor y (Int.land (Int.xor x y) (if x < y then -1 else 0))

/-- Embedding of `dtl::branchless::max`: `x ^ ((x ^ y) & -(x < y))`. -/
def max (x y : Int) : Int :=
  Int.xor x (Int.land (Int.xor x y) (if x < y then -1 else 0))

namespace PowerOf2

/-- Embedding of `power_of_2::isa` at width `w`:
`((value - 1) & value) == 0`, where the decrement wraps at the width of the
arithmetic (for `v = 0` the subtraction yields the all-ones pattern). -/
def isa (w v : Nat) : Bool := ((v + 2 ^ w - 1) % 2 ^ w) &&& v == 0

/-- Embedding of `power_of_2::roundup` at width `w`: decrement, OR-smear by
shifts of 1, 2, 4, 8 and 16 (the source stops at 16), increment; every store
into the `T`-typed variable wraps at width `w`. -/
def roundup (w v : Nat) : Nat :=
  let v0 := (v + 2 ^ w - 1) % 2 ^ w
  let v1 := v0 ||| (v0 >>> 1)
  let v2 := v1 ||| (v1 >>> 2)
  let v3 := v2 ||| (v2 >>> 4)
  let v4 := v3 ||| (v3 >>> 8)
  let v5 := v4 ||| (v4 >>> 16)
  (v5 + 1) % 2 ^ w

end PowerOf2

end Branchless

end Dtl

namespace Raii

/-- Outcome of one underlying OS call, as supplied by the environment:
either success or failure with an errno value. -/
inductive SysRes where
  | ok : SysRes
  | err : Nat → SysRes
deriving DecidableEq

/-- OS calls a wrapper can make; operations record the calls they issue. -/
inductive Eff where
  | closeSys : Int → Eff
  | fstatSys : Int → Eff
  | mmapSys : Eff
  | munmapSys : Int → Nat → Eff
deriving DecidableEq

/-- The errno value for an interrupted call. -/
def EINTR : Nat := 4

/-- The errno value for a bad file descriptor. -/
def EBADF : Nat := 9

/-- The fd wrapper state: the owned raw descriptor value. -/
structure Fd where
  handle : Int
deriving DecidableEq

/-- The sentinel descriptor value (`constexpr static int invalid = -1`). -/
def Fd.invalid : Int := -1

/-- The retry loop shared by both fd::close variants: repeatedly invoke
::close(handle), retrying while the failure reason is EINTR; any other
errno is raised at once.  The environment supplies the successive ::close
results; the first component records the calls issued and the second is the
loop outcome (`none` when the trace is exhausted before the loop settles). -/
def closeRetry (h : Int) : List SysRes → List Eff × Option (Except Nat Unit)
  | [] => ([], none)
  | SysRes.ok :: _ => ([Eff.closeSys h], some (Except.ok ()))
  | SysRes.err e :: rest =>
    if e = EINTR then
      let r := closeRetry h rest
      (Eff.closeSys h :: r.1, r.2)
    else ([Eff.closeSys h], some (Except.error e))

/-- Embedding of the lenient fd::close (part_000): a sentinel handle is a
silent no-op; otherwise the retry loop runs and on success the handle
becomes the sentinel. -/
def Fd.close (f : Fd) (tr : List SysRes) : List Eff × Option (Except Nat Fd) :=
  if f.handle = Fd.invalid then ([], some (Except.ok f))
  else
    match closeRetry f.handle tr with
    | (effs, none) => (effs, none)
    | (effs, some (Except.ok _)) => (effs, some (Except.ok ⟨Fd.invalid⟩))
    | (effs, some (Except.error e)) => (effs, some (Except.error e))

/-- Embedding of fd::release: return the owned value and reset to the
sentinel; no OS call is made and the operation cannot fail. -/
def Fd.release (f : Fd) : Int × Fd × List Eff :=
  (f.handle, ⟨Fd.invalid⟩, [])

/-- The mmap wrapper state: owned address and byte length.  Addresses are
modelled as integers; MAP_FAILED is the all-ones pattern (-1) and the null
address is 0. -/
structure Mm where
  address : Int
  length : Nat
deriving DecidableEq

/-- The sentinel address MAP_FAILED (`(void *) -1`). -/
def mapFailed : Int := -1

/-- Embedding of mmap::close: a MAP_FAILED address is a silent no-op;
otherwise one ::munmap(address, length) call is made, an error result is
raised with its errno, and on success the state becomes the sentinel pair. -/
def Mm.close (m : Mm) (r : SysRes) : List Eff × Except Nat Mm :=
  if m.address = mapFailed then ([], Except.ok m)
  else
    match r with
    | SysRes.ok => ([Eff.munmapSys m.address m.length], Except.ok ⟨mapFailed, 0⟩)
    | SysRes.err e => ([Eff.munmapSys m.address m.length], Except.error e)

/-- Embedding of mmap::release: return the (address, length) pair and reset
to the sentinel pair; no OS call is made and the operation cannot fail. -/
def Mm.release (m : Mm) : (Int × Nat) × Mm × List Eff :=
  ((m.address, m.length), ⟨mapFailed, 0⟩, [])

/-- Embedding of mmap::reset(address = nullptr, length = 0): close the
current region, then adopt the given pair.  The default address in the
source is nullptr (0), not MAP_FAILED. -/
def Mm.reset (m : Mm) (r : SysRes) (address : Int := 0) (length : Nat := 0) :
    List Eff × Except Nat Mm :=
  match Mm.close m r with
  | (effs, Except.ok _) => (effs, Except.ok ⟨address, length⟩)
  | (effs, Except.error e) => (effs, Except.error e)

/-- Embedding of mmap::operator bool: true iff address differs from
MAP_FAILED. -/
def Mm.toBool (m : Mm) : Bool := m.address != mapFailed

/-- Environment for the fd-consuming mmap constructor: the ::fstat result
(the file size on success), the ::mmap result (the mapped address on
success), and the trace of ::close results for the sunk handle. -/
structure World where
  fstatRes : Except Nat Nat
  mmapRes : Except Nat Int
  closeTr : List SysRes

/-- Embedding of mmap::mmap(raii::fd &&, ...): the fd argument is
move-constructed into a local handle (the caller's fd becomes the sentinel
immediately); ::fstat and ::mmap results come from the environment and each
failure is raised as a labelled structured error; the local handle is
destroyed (lenient fd::close) on every exit path.  Outcome `none` models a
path on which the constructor never returns (the close trace does not
settle, or close throws during unwinding, i.e. std::terminate).  Returns
the caller's fd state after the call, the outcome, and the OS calls made. -/
def Mm.ctorFromFd (f : Fd) (w : World) :
    Fd × Option (Except (String × Nat) Mm) × List Eff :=
  let argAfter : Fd := ⟨Fd.invalid⟩
  let h := f.handle
  match w.fstatRes with
  | Except.error e =>
    match Fd.close ⟨h⟩ w.closeTr with
    | (effs, some (Except.ok _)) =>
      (argAfter, some (Except.error ("fstat", e)), Eff.fstatSys h :: effs)
    | (effs, _) => (argAfter, none, Eff.fstatSys h :: effs)
  | Except.ok size =>
    match w.mmapRes with
    | Except.error e =>
      match Fd.close ⟨h⟩ w.closeTr with
      | (effs, some (Except.ok _)) =>
        (argAfter, some (Except.error ("mmap", e)),
          Eff.fstatSys h :: Eff.mmapSys :: effs)
      | (effs, _) => (argAfter, none, Eff.fstatSys h :: Eff.mmapSys :: effs)
    | Except.ok addr =>
      match Fd.close ⟨h⟩ w.closeTr with
      | (effs, some (Except.ok _)) =>
        (argAfter, some (Except.ok ⟨addr, size⟩),
          Eff.fstatSys h :: Eff.mmapSys :: effs)
      | (effs, some (Except.error e)) =>
        (argAfter, some (Except.error ("close", e)),
          Eff.fstatSys h :: Eff.mmapSys :: effs)
      | (effs, none) => (argAfter, none, Eff.fstatSys h :: Eff.mmapSys :: effs)

namespace Strict

/-- Embedding of the strict fd::close (part_001): a sentinel handle raises
EBADF; otherwise the retry loop runs as in the lenient variant. -/
def close (f : Fd) (tr : List SysRes) : List Eff × Option (Except Nat Fd) :=
  if f.handle = Fd.invalid then ([], some (Except.error EBADF))
  else
    match closeRetry f.handle tr with
    | (effs, none) => (effs, none)
    | (effs, some (Except.ok _)) => (effs, some (Except.ok ⟨Fd.invalid⟩))
    | (effs, some (Except.error e)) => (effs, some (Except.error e))

/-- Embedding of the strict fd move assignment:
`if (handle != invalid) close(); handle = other.handle; other.handle = invalid;`.
Returns the new (destination, source) pair on success. -/
def assignMove (dst src : Fd) (tr : List SysRes) :
    List Eff × Option (Except Nat (Fd × Fd)) :=
  if dst.handle ≠ Fd.invalid then
    match close dst tr with
    | (effs, some (Except.ok _)) =>
      (effs, some (Except.ok (⟨src.handle⟩, ⟨Fd.invalid⟩)))
    | (effs, some (Except.error e)) => (effs, some (Except.error e))
    | (effs, none) => (effs, none)
  else ([], some (Except.ok (⟨src.handle⟩, ⟨Fd.invalid⟩)))

/-- Embedding of the strict fd raw assignment:
`if (handle != invalid) close(); handle = fd;`. -/
def assignRaw (dst : Fd) (v : Int) (tr : List SysRes) :
    List Eff × Option (Except Nat Fd) :=
  if dst.handle ≠ Fd.invalid then
    match close dst tr with
    | (effs, some (Except.ok _)) => (effs, some (Except.ok ⟨v⟩))
    | (effs, some (Except.error e)) => (effs, some (Except.error e))
    | (effs, none) => (effs, none)
  else ([], some (Except.ok ⟨v⟩))

/-- Embedding of the strict fd::reset(fd = invalid):
`if (handle != invalid) close(); handle = fd;`. -/
def reset (dst : Fd) (tr : List SysRes) (v : Int := Fd.invalid) :
    List Eff × Option (Except Nat Fd) :=
  if dst.handle ≠ Fd.invalid then
    match close dst tr with
    | (effs, some (Except.ok _)) => (effs, some (Except.ok ⟨v⟩))
    | (effs, some (Except.error e)) => (effs, some (Except.error e))
    | (effs, none) => (effs, none)
  else ([], some (Except.ok ⟨v⟩))

/-- Embedding of the strict fd destructor: `if (handle != invalid) close();`. -/
def destroy (f : Fd) (tr : List SysRes) : List Eff × Option (Except Nat Unit) :=
  if f.handle ≠ Fd.invalid then
    match close f tr with
    | (effs, some (Except.ok _)) => (effs, some (Except.ok ()))
    | (effs, some (Except.error e)) => (effs, some (Except.error e))
    | (effs, none) => (effs, none)
  else ([], some (Except.ok ()))

end Strict

end Raii

namespace Dtl

/-- Cancellation of a Nat xor on the right. -/
theorem nat_xor_cancel (m n : Nat) : n ^^^ (m ^^^ n) = m := by
  rw [Nat.xor_comm m n, ← Nat.xor_assoc, Nat.xor_self, Nat.zero_xor]

/-- Cancellation of a Nat xor on the left. -/
theorem nat_xor_cancel_left (m n : Nat) : m ^^^ (m ^^^ n) = n := by
  rw [← Nat.xor_assoc, Nat.xor_self, Nat.zero_xor]

/-- Bitwise difference with zero on the right is the identity. -/
theorem ldiff_zero_right (m : Nat) : Nat.ldiff m 0 = m := by
  apply Nat.eq_of_testBit_eq; intro i
  simp [Nat.testBit_ldiff]

/-- Bitwise difference with zero on the left is zero. -/
theorem ldiff_zero_left (m : Nat) : Nat.ldiff 0 m = 0 := by
  apply Nat.eq_of_testBit_eq; intro i
  simp [Nat.testBit_ldiff]

/-- Integer xor with zero is the identity. -/
theorem int_xor_zero (a : Int) : Int.xor a 0 = a := by
  cases a <;> simp [Int.xor]

/-- Integer xor with the all-ones pattern is two's-complement negation
minus one. -/
theorem int_xor_neg_one (a : Int) : Int.xor a (-1) = -(a + 1) := by
  have h1 : (-1 : Int) = Int.negSucc 0 := rfl
  rw [h1]
  cases a with
  | ofNat m => simp [Int.xor, Int.negSucc_eq]
  | negSucc m => simp [Int.xor, Int.negSucc_eq]

/-- Integer bitwise and with zero is zero. -/
theorem int_land_zero (a : Int) : Int.land a 0 = 0 := by
  cases a with
  | ofNat m => simp [Int.land]
  | negSucc m => simp [Int.land, ldiff_zero_left]

/-- Integer bitwise and with the all-ones pattern is the identity. -/
theorem int_land_neg_one (a : Int) : Int.land a (-1) = a := by
  have h1 : (-1 : Int) = Int.negSucc 0 := rfl
  rw [h1]
  cases a with
  | ofNat m => simp [Int.land, ldiff_zero_right]
  | negSucc m => simp [Int.land]

/-- Cancellation of an integer xor on the right. -/
theorem int_xor_cancel (x y : Int) : Int.xor y (Int.xor x y) = x := by
  cases x <;> cases y <;> simp [Int.xor, nat_xor_cancel]

/-- Cancellation of an integer xor on the left. -/
theorem int_xor_cancel_left (x y : Int) : Int.xor x (Int.xor x y) = y := by
  cases x <;> cases y <;> simp [Int.xor, nat_xor_cancel_left]

/-- The bit at position `k` of a number lying in `[2^k, 2^(k+1))` is set. -/
theorem testBit_of_bounds {n k : Nat} (h1 : 2 ^ k ≤ n) (h2 : n < 2 ^ (k + 1)) :
    Nat.testBit n k = true := by
  rw [Nat.testBit_to_div_mod]
  have hdiv : n / 2 ^ k = 1 := by
    apply Nat.div_eq_of_lt_le
    · simpa using h1
    · simpa [Nat.succ_mul, Nat.pow_succ, Nat.mul_comm] using h2
  simp [hdiv]

/-- The bit trick behind power_of_2::isa: for positive `v`, the conjunction
of `v` with its predecessor vanishes exactly when `v` is a power of two. -/
theorem land_pred_eq_zero_iff (v : Nat) (hv : 0 < v) :
    ((v - 1) &&& v = 0) ↔ ∃ k, v = 2 ^ k := by
  constructor
  · intro h
    by_contra hnp
    push_neg at hnp
    set k := Nat.log2 v with hk
    have h1 : 2 ^ k ≤ v := Nat.log2_self_le (by omega)
    have h2 : v < 2 ^ (k + 1) := Nat.lt_log2_self
    have hne : v ≠ 2 ^ k := hnp k
    have h1' : 2 ^ k ≤ v - 1 := by omega
    have h2' : v - 1 < 2 ^ (k + 1) := by omega
    have hb1 : Nat.testBit (v - 1) k = true := testBit_of_bounds h1' h2'
    have hb2 : Nat.testBit v k = true := testBit_of_bounds h1 h2
    have : Nat.testBit ((v - 1) &&& v) k = true := by
      rw [Nat.testBit_and, hb1, hb2]; rfl
    rw [h] at this
    simp at this
  · rintro ⟨k, rfl⟩
    apply Nat.eq_of_testBit_eq
    intro i
    rw [Nat.testBit_and, Nat.testBit_two_pow_sub_one, Nat.testBit_two_pow]
    simp only [Nat.zero_testBit]
    rcases Nat.lt_trichotomy i k with h | h | h
    · simp [h, Nat.ne_of_gt h]
    · simp [h]
    · simp [Nat.not_lt.mpr (Nat.le_of_lt h)]

/-- Reduction at width `W` is the identity on representable values. -/
theorem wrapS_eq_self (W : Nat) (x : Int) (hW : 0 < W)
    (h1 : -(2 ^ (W - 1)) ≤ x) (h2 : x < 2 ^ (W - 1)) :
    Dtl.Branchless.wrapS W x = x := by
  unfold Dtl.Branchless.wrapS
  have h2W : (2 : Int) ^ W = 2 ^ (W - 1) * 2 := by
    conv_lhs => rw [show W = (W - 1) + 1 by omega]
    rw [pow_succ]
  have h0 : (0 : Int) ≤ x + 2 ^ (W - 1) := by linarith
  have h3 : x + 2 ^ (W - 1) < 2 ^ W := by rw [h2W]; linarith
  rw [Int.emod_eq_of_lt h0 h3]
  ring

/-- Monotonicity of integer powers of two. -/
theorem two_pow_le_two_pow (a b : Nat) (h : a ≤ b) : ((2 : Int) ^ a ≤ 2 ^ b) := by
  exact pow_le_pow_right₀ (by norm_num) h

/-- The sign_extend mask of a representable `w`-bit value is all-ones for a
negative value and zero otherwise, exactly as the unions of branchless.hh
produce it. -/
theorem signExtendMask_eq (w : Nat) (v : Int) (hw : 0 < w)
    (h1 : -(2 ^ (w - 1)) ≤ v) (h2 : v < 2 ^ (w - 1)) :
    Dtl.Branchless.signExtendMask w v = if v < 0 then -1 else 0 := by
  unfold Dtl.Branchless.signExtendMask Dtl.Branchless.toBits
  have hww : (2 : Int) ^ (2 * w) = 2 ^ w * 2 ^ w := by
    rw [two_mul, pow_add]
  have hle1 : (2 : Int) ^ (w - 1) ≤ 2 ^ w := two_pow_le_two_pow _ _ (by omega)
  have hle2 : (2 : Int) ^ w ≤ 2 ^ (2 * w) := two_pow_le_two_pow _ _ (by omega)
  have hpos : (0 : Int) < 2 ^ w := by positivity
  have hpos1 : (0 : Int) < 2 ^ (w - 1) := by positivity
  by_cases hneg : v < 0
  · -- negative value: the dword pattern is v + 2^(2w); its high word is 2^w - 1
    have hmod : v % (2 : Int) ^ (2 * w) = v + 2 ^ (2 * w) := by
      have : (v + 2 ^ (2 * w)) % (2 : Int) ^ (2 * w) = v % 2 ^ (2 * w) := by
        conv_lhs => rw [show v + (2 : Int) ^ (2 * w) = v + 1 * 2 ^ (2 * w) by ring]
        rw [Int.add_mul_emod_self]
      rw [← this, Int.emod_eq_of_lt (by linarith) (by linarith)]
    rw [hmod, hww]
    have hdiv : (v + 2 ^ w * 2 ^ w) / (2 : Int) ^ w = v / 2 ^ w + 2 ^ w :=
      Int.add_mul_ediv_right _ _ (by positivity)
    have hvdiv : v / (2 : Int) ^ w = -1 := by
      have ha : (v + 2 ^ w) / (2 : Int) ^ w = v / 2 ^ w + 1 := by
        have := Int.add_mul_ediv_right v 1 (show (2 : Int) ^ w ≠ 0 by positivity)
        simpa using this
      have hb : (v + 2 ^ w) / (2 : Int) ^ w = 0 :=
        Int.ediv_eq_zero_of_lt (by linarith) (by linarith)
      omega
    rw [hdiv, hvdiv]
    have : Dtl.Branchless.wrapS w (-1 + 2 ^ w) = -1 := by
      unfold Dtl.Branchless.wrapS
      have hrw : (-1 + (2 : Int) ^ w + 2 ^ (w - 1)) = (2 ^ (w - 1) - 1) + 1 * 2 ^ w := by
        ring
      rw [hrw, Int.add_mul_emod_self,
        Int.emod_eq_of_lt (by linarith) (by linarith)]
      ring
    rw [this, if_pos hneg]
  · -- non-negative value: the dword pattern is v itself; its high word is 0
    push_neg at hneg
    have hmod : v % (2 : Int) ^ (2 * w) = v := Int.emod_eq_of_lt hneg (by linarith)
    have hdiv : v / (2 : Int) ^ w = 0 := Int.ediv_eq_zero_of_lt hneg (by linarith)
    rw [hmod, hdiv, if_neg (by omega)]
    exact wrapS_eq_self w 0 hw (by linarith) (by linarith)

end Dtl

open Raii in
/-- A run of EINTR failures in the trace makes the close loop retry: one
::close call per EINTR, then the loop continues on the remaining trace. -/
theorem closeRetry_replicate_eintr (h : Int) (n : Nat) (tail : List SysRes) :
    closeRetry h (List.replicate n (SysRes.err EINTR) ++ tail)
      = (List.replicate n (Eff.closeSys h) ++ (closeRetry h tail).1,
         (closeRetry h tail).2) := by
  induction n with
  | zero => simp
  | succ k ih => simp [List.replicate_succ, closeRetry, ih]

open Raii in
/-- Whenever the close loop settles, at least one ::close call was issued. -/
theorem closeRetry_mem_of_settled (h : Int) (tr : List SysRes) (r : Except Nat Unit)
    (hs : (closeRetry h tr).2 = some r) : Eff.closeSys h ∈ (closeRetry h tr).1 := by
  cases tr with
  | nil => simp [closeRetry] at hs
  | cons a rest =>
    cases a with
    | ok => simp [closeRetry]
    | err e =>
      by_cases he : e = EINTR <;> simp [closeRetry, he]

open Raii in
/-- Whenever the lenient fd::close settles on a non-sentinel handle, a
::close call on that handle was issued. -/
theorem fdClose_mem_of_settled (h : Int) (hh : h ≠ Fd.invalid) (tr : List SysRes)
    (r : Except Nat Fd) (hs : (Fd.close ⟨h⟩ tr).2 = some r) :
    Eff.closeSys h ∈ (Fd.close ⟨h⟩ tr).1 := by
  unfold Fd.close at *
  simp only [hh, if_false] at *
  rcases hcr : closeRetry h tr with ⟨effs, ro⟩
  rw [hcr] at hs
  cases ro with
  | none => simp at hs
  | some rr =>
    have hm : Eff.closeSys h ∈ (closeRetry h tr).1 :=
      closeRetry_mem_of_settled h tr rr (by rw [hcr])
    rw [hcr] at hm
    cases rr <;> simpa using hm

set_option maxRecDepth 8000 in
/-- Claim C1: the spec asserts roundup(v) yields v for a power of two and
the next higher power of two otherwise, for every target width including
64-bit inputs above 2^32.  The source smears only through `>> 16`, so at
width 64 the input 2^32 + 1 = 4294967297 produces 2^33 - 1 = 8589934591,
which is not the required next power of two 2^33 = 8589934592 and is not a
power of two at all; at width 32 the routine is still correct (control
value: roundup(4097) = 8192). -/
theorem C1_roundup_64_missing_smear :
    Dtl.Branchless.PowerOf2.roundup 64 4294967297 = 8589934591 ∧
    Dtl.Branchless.PowerOf2.roundup 64 4294967297 ≠ 8589934592 ∧
    (¬ ∃ k, (8589934591 : Nat) = 2 ^ k) ∧
    Dtl.Branchless.PowerOf2.roundup 32 4097 = 8192 := by
  refine ⟨by decide, by decide, ?_, by decide⟩
  rintro ⟨k, hk⟩
  have h1 : (8589934591 : Nat) - 1 &&& 8589934591 = 0 :=
    (Dtl.land_pred_eq_zero_iff 8589934591 (by norm_num)).mpr ⟨k, hk⟩
  revert h1
  decide

open Raii in
/-- Claim C2 (counterexample): in the strict variant, move-assign,
assign-from-raw, reset and the destructor applied to a sentinel fd do NOT
raise the EBADF misuse error: each guards the release with a validity check
and completes successfully with no ::close call. -/
theorem C2_sentinel_ops_do_not_raise :
    Strict.assignMove ⟨Fd.invalid⟩ ⟨5⟩ []
        = ([], some (Except.ok (⟨5⟩, ⟨Fd.invalid⟩))) ∧
    Strict.assignRaw ⟨Fd.invalid⟩ 7 [] = ([], some (Except.ok ⟨7⟩)) ∧
    Strict.reset ⟨Fd.invalid⟩ [] = ([], some (Except.ok ⟨Fd.invalid⟩)) ∧
    Strict.destroy ⟨Fd.invalid⟩ [] = ([], some (Except.ok ())) :=
  ⟨rfl, rfl, rfl, rfl⟩

open Raii in
/-- Claim C2 (amended): in the strict variant only the private close()
raises EBADF on a sentinel handle; the public operations move-assign,
assign-from-raw, reset and destroy each check validity first and silently
skip the release when the current value is the sentinel, completing without
error and without any OS call. -/
theorem C2_strict_guard (dst : Fd) (h : dst.handle = Fd.invalid) (src : Fd)
    (v : Int) (tr : List SysRes) :
    Strict.assignMove dst src tr
        = ([], some (Except.ok (⟨src.handle⟩, ⟨Fd.invalid⟩))) ∧
    Strict.assignRaw dst v tr = ([], some (Except.ok ⟨v⟩)) ∧
    Strict.reset dst tr = ([], some (Except.ok ⟨Fd.invalid⟩)) ∧
    Strict.destroy dst tr = ([], some (Except.ok ())) ∧
    Strict.close dst tr = ([], some (Except.error EBADF)) := by
  refine ⟨?_, ?_, ?_, ?_, ?_⟩ <;>
    simp [Strict.assignMove, Strict.assignRaw, Strict.reset, Strict.destroy,
      Strict.close, h]

open Raii in
/-- Witness for C2_strict_guard at a concrete sentinel state. -/
theorem C2_strict_guard_witness :
    Strict.assignMove ⟨Fd.invalid⟩ ⟨5⟩ [SysRes.ok]
        = ([], some (Except.ok (⟨5⟩, ⟨Fd.invalid⟩))) ∧
    Strict.close ⟨Fd.invalid⟩ [SysRes.ok] = ([], some (Except.error EBADF)) := by
  have h := C2_strict_guard ⟨Fd.invalid⟩ rfl ⟨5⟩ 7 [SysRes.ok]
  exact ⟨h.1, h.2.2.2.2⟩

open Raii in
/-- Claim C3: the spec asserts that after reset() with default arguments the
region is in the sentinel state and its boolean conversion is false.  The
source defaults the new address to nullptr (0) while the sentinel is
MAP_FAILED (-1): resetting the sentinel region with defaults yields the
state (0, 0), whose boolean conversion is true, violating the claimed
invariant (the region owns no mapping there, and its destructor would go on
to call munmap(nullptr, 0)). -/
theorem C3_reset_default_not_sentinel :
    Mm.reset ⟨mapFailed, 0⟩ SysRes.ok = ([], Except.ok ⟨0, 0⟩) ∧
    Mm.toBool ⟨0, 0⟩ = true ∧
    Mm.toBool ⟨mapFailed, 0⟩ = false ∧
    (0 : Int) ≠ mapFailed :=
  ⟨rfl, rfl, rfl, by decide⟩

/-- Claim C4: for width w and every representable v, isa(v) is true exactly
when v is a power of two 2^k with k < w, or when v = 0 (the documented edge
case of the bit trick). -/
theorem C4_isa_iff (w v : Nat) (hv : v < 2 ^ w) :
    Dtl.Branchless.PowerOf2.isa w v = true ↔
      (v = 0 ∨ ∃ k, k < w ∧ v = 2 ^ k) := by
  unfold Dtl.Branchless.PowerOf2.isa
  rcases Nat.eq_zero_or_pos v with hz | hpos
  · subst hz
    simp
  · have hmod : (v + 2 ^ w - 1) % 2 ^ w = v - 1 := by
      have h1 : v + 2 ^ w - 1 = (v - 1) + 2 ^ w := by omega
      rw [h1, Nat.add_mod_right, Nat.mod_eq_of_lt (by omega)]
    rw [hmod, beq_iff_eq, Dtl.land_pred_eq_zero_iff v hpos]
    constructor
    · rintro ⟨k, rfl⟩
      refine Or.inr ⟨k, ?_, rfl⟩
      exact (Nat.pow_lt_pow_iff_right (by omega)).mp hv
    · rintro (hz | ⟨k, hk, rfl⟩)
      · omega
      · exact ⟨k, rfl⟩

/-- Witness for C4_isa_iff: at width 8, the value 6 is neither zero nor a
power of two, and isa 8 6 is false accordingly. -/
theorem C4_isa_iff_witness :
    (6 < 2 ^ 8) ∧
      (Dtl.Branchless.PowerOf2.isa 8 6 = true ↔
        ((6 : Nat) = 0 ∨ ∃ k, k < 8 ∧ (6 : Nat) = 2 ^ k)) :=
  ⟨by decide, C4_isa_iff 8 6 (by decide)⟩

open Raii in
/-- Claim C5: for a non-sentinel handle, both fd::close variants repeatedly
invoke ::close (one call per EINTR failure plus the settling call); they
retry on EINTR, raise any other errno immediately as the structured error
payload, and on success leave the handle at the sentinel. -/
theorem C5_close_retry_loop (f : Fd) (hf : f.handle ≠ Fd.invalid)
    (n : Nat) (e : Nat) (he : e ≠ EINTR) (rest : List SysRes) :
    (Fd.close f (List.replicate n (SysRes.err EINTR) ++ SysRes.ok :: rest)).2
        = some (Except.ok ⟨Fd.invalid⟩) ∧
    (Fd.close f (List.replicate n (SysRes.err EINTR) ++ SysRes.ok :: rest)).1
        = List.replicate n (Eff.closeSys f.handle) ++ [Eff.closeSys f.handle] ∧
    (Fd.close f (List.replicate n (SysRes.err EINTR) ++ SysRes.err e :: rest)).2
        = some (Except.error e) ∧
    (Fd.close f (List.replicate n (SysRes.err EINTR) ++ SysRes.err e :: rest)).1
        = List.replicate n (Eff.closeSys f.handle) ++ [Eff.closeSys f.handle] ∧
    (Strict.close f (List.replicate n (SysRes.err EINTR) ++ SysRes.ok :: rest)).2
        = some (Except.ok ⟨Fd.invalid⟩) ∧
    (Strict.close f (List.replicate n (SysRes.err EINTR) ++ SysRes.err e :: rest)).2
        = some (Except.error e) := by
  have hok := closeRetry_replicate_eintr f.handle n (SysRes.ok :: rest)
  have herr := closeRetry_replicate_eintr f.handle n (SysRes.err e :: rest)
  refine ⟨?_, ?_, ?_, ?_, ?_, ?_⟩ <;>
    simp [Fd.close, Strict.close, hf, hok, herr, closeRetry, he]

open Raii in
/-- Witness for C5_close_retry_loop: handle 3, two EINTR retries, then one
success; and two EINTR retries followed by a hard EBADF failure. -/
theorem C5_close_retry_loop_witness :
    (Fd.close ⟨3⟩ [SysRes.err EINTR, SysRes.err EINTR, SysRes.ok]).2
        = some (Except.ok ⟨Fd.invalid⟩) ∧
    (Fd.close ⟨3⟩ [SysRes.err EINTR, SysRes.err EINTR, SysRes.err EBADF]).2
        = some (Except.error EBADF) := by
  have h := C5_close_retry_loop ⟨3⟩ (by decide) 2 EBADF (by decide) []
  exact ⟨h.1, h.2.2.1⟩

open Raii in
/-- Claim C6: constructing a region from a handle consumes the handle: on
every path (success, fstat failure, mmap failure) the caller's fd argument
is left at the sentinel, and whenever the constructor returns (normally or
by raising) with a non-sentinel input handle, a ::close call on that raw
handle is among the OS calls made, so the handle is never retained. -/
theorem C6_ctor_consumes_fd (f : Fd) (w : World) :
    (Mm.ctorFromFd f w).1 = ⟨Fd.invalid⟩ ∧
    (f.handle ≠ Fd.invalid → (Mm.ctorFromFd f w).2.1.isSome = true →
      Eff.closeSys f.handle ∈ (Mm.ctorFromFd f w).2.2) := by
  unfold Mm.ctorFromFd
  rcases w with ⟨fs, mr, tr⟩
  cases fs with
  | error e =>
    rcases hcl : Fd.close ⟨f.handle⟩ tr with ⟨effs, ro⟩
    cases ro with
    | none => simp [hcl]
    | some rr =>
      cases rr with
      | ok g =>
        refine ⟨by simp [hcl], fun hne _ => ?_⟩
        have := fdClose_mem_of_settled f.handle hne tr (Except.ok g) (by rw [hcl])
        rw [hcl] at this
        simp [hcl, this]
      | error e2 => simp [hcl]
  | ok size =>
    cases mr with
    | error e =>
      rcases hcl : Fd.close ⟨f.handle⟩ tr with ⟨effs, ro⟩
      cases ro with
      | none => simp [hcl]
      | some rr =>
        cases rr with
        | ok g =>
          refine ⟨by simp [hcl], fun hne _ => ?_⟩
          have := fdClose_mem_of_settled f.handle hne tr (Except.ok g) (by rw [hcl])
          rw [hcl] at this
          simp [hcl, this]
        | error e2 => simp [hcl]
    | ok addr =>
      rcases hcl : Fd.close ⟨f.handle⟩ tr with ⟨effs, ro⟩
      cases ro with
      | none => simp [hcl]
      | some rr =>
        cases rr with
        | ok g =>
          refine ⟨by simp [hcl], fun hne _ => ?_⟩
          have := fdClose_mem_of_settled f.handle hne tr (Except.ok g) (by rw [hcl])
          rw [hcl] at this
          simp [hcl, this]
        | error e2 =>
          refine ⟨by simp [hcl], fun hne _ => ?_⟩
          have := fdClose_mem_of_settled f.handle hne tr (Except.error e2) (by rw [hcl])
          rw [hcl] at this
          simp [hcl, this]

open Raii in
/-- Witness for C6_ctor_consumes_fd: a successful construction from handle 3
leaves the argument at the sentinel and has closed handle 3. -/
theorem C6_ctor_consumes_fd_witness :
    (Mm.ctorFromFd ⟨3⟩ ⟨Except.ok 4096, Except.ok 1000, [SysRes.ok]⟩).1
        = ⟨Fd.invalid⟩ ∧
    Eff.closeSys 3 ∈
      (Mm.ctorFromFd ⟨3⟩ ⟨Except.ok 4096, Except.ok 1000, [SysRes.ok]⟩).2.2 := by
  have h := C6_ctor_consumes_fd ⟨3⟩ ⟨Except.ok 4096, Except.ok 1000, [SysRes.ok]⟩
  exact ⟨h.1, h.2 (by decide) (by decide)⟩

open Raii in
/-- Claim C7: release() on either wrapper never fails, returns exactly the
value owned before the call (the raw fd, or the address-length pair), resets
the object to the sentinel (respectively sentinel/zero) state, and records
no OS call whatsoever. -/
theorem C7_release_pure (f : Fd) (m : Mm) :
    Fd.release f = (f.handle, ⟨Fd.invalid⟩, ([] : List Eff)) ∧
    Mm.release m = ((m.address, m.length), ⟨mapFailed, 0⟩, ([] : List Eff)) :=
  ⟨rfl, rfl⟩

/-- Claim C8: for each supported width and every representable value other
than the most-negative one, abs computes the usual absolute value. -/
theorem C8_abs (w : Nat) (hw : w = 8 ∨ w = 16 ∨ w = 32 ∨ w = 64) (v : Int)
    (hlo : -(2 ^ (w - 1)) < v) (hhi : v < 2 ^ (w - 1)) :
    Dtl.Branchless.abs w v = if v < 0 then -v else v := by
  have hw0 : 0 < w := by rcases hw with h | h | h | h <;> omega
  have hP : w ≤ Dtl.Branchless.promoted w := Nat.le_max_left _ _
  have hP0 : 0 < Dtl.Branchless.promoted w := by
    have := Nat.le_max_right w 32
    unfold Dtl.Branchless.promoted at *
    omega
  have hPle : ((2 : Int) ^ (w - 1)) ≤ 2 ^ (Dtl.Branchless.promoted w - 1) :=
    Dtl.two_pow_le_two_pow _ _ (by omega)
  have hmask := Dtl.signExtendMask_eq w v hw0 (le_of_lt hlo) hhi
  unfold Dtl.Branchless.abs
  rw [hmask]
  by_cases hneg : v < 0
  · rw [if_pos hneg, if_pos hneg]
    show Dtl.Branchless.wrapS (Dtl.Branchless.promoted w) (Int.xor v (-1) - (-1)) = -v
    rw [Dtl.int_xor_neg_one]
    have hx : -(v + 1) - -1 = -v := by ring
    rw [hx]
    exact Dtl.wrapS_eq_self _ _ hP0 (by linarith) (by linarith)
  · rw [if_neg hneg, if_neg hneg]
    show Dtl.Branchless.wrapS (Dtl.Branchless.promoted w) (Int.xor v 0 - 0) = v
    rw [Dtl.int_xor_zero]
    push_neg at hneg
    have hx : v - 0 = v := by ring
    rw [hx]
    exact Dtl.wrapS_eq_self _ _ hP0 (by linarith) (by linarith)

/-- Witness for C8_abs at width 8 and value -5. -/
theorem C8_abs_witness : Dtl.Branchless.abs 8 (-5) = 5 := by
  have h := C8_abs 8 (Or.inl rfl) (-5) (by norm_num) (by norm_num)
  norm_num at h
  exact h

/-- Claim C9: the branchless min/max agree with the comparison-based
definitions for all integer values, including equal arguments. -/
theorem C9_min_max (x y : Int) :
    Dtl.Branchless.min x y = (if x < y then x else y) ∧
    Dtl.Branchless.max x y = (if x < y then y else x) := by
  unfold Dtl.Branchless.min Dtl.Branchless.max
  by_cases h : x < y <;>
    simp [h, Dtl.int_land_neg_one, Dtl.int_land_zero, Dtl.int_xor_cancel,
      Dtl.int_xor_cancel_left, Dtl.int_xor_zero]

set_option maxRecDepth 4000 in
/-- Claim C10: on the most-negative value, abs is width-dependent: the 8-
and 16-bit computations happen at the promoted 32-bit width and return the
mathematically correct 128 and 32768, while the 32- and 64-bit computations
wrap modulo 2^w back to the most-negative value itself. -/
theorem C10_abs_most_negative :
    Dtl.Branchless.abs 8 (-128) = 128 ∧
    Dtl.Branchless.abs 16 (-32768) = 32768 ∧
    Dtl.Branchless.abs 32 (-2147483648) = -2147483648 ∧
    Dtl.Branchless.abs 64 (-9223372036854775808) = -9223372036854775808 :=
  ⟨by decide, by decide, by decide, by decide⟩
